import Mathlib

/-!
Shallow embedding of the verdaccio-htpasswd credential store.

The JavaScript sources embedded here are `utils.js` (parsing, serialization,
password verification, sanity checks, group handling) and `htpasswd.js`
(the `HTPasswd` class with `adduser`, `addusergroups`, `reload`,
`reloadGroups`).  JavaScript objects used as string-keyed maps are modelled
as association lists that preserve insertion order; `obj[k] = v` is `upsert`,
which keeps the position of an existing key.  External npm libraries
(`bcryptjs`, `apache-md5`, `crypto`, the two-argument form of `crypt3`) are
modelled as parameters collected in `CryptoPrims`; the one-argument salt
generating form of `crypt3` (a repository file not available here) is passed
as an `Option (String → String)`, mirroring the `if (crypt3)` test in
`addUserToHTPasswd`.  File-system and lock outcomes are passed in explicitly
so that the callback control flow of `adduser` and `reload` becomes a pure
function of those outcomes.
-/

/-- Error objects created by the source: a `name` (`Error` or `TypeError`),
a `message`, and the optional numeric `status` field the code attaches. -/
structure JsError where
  name : String := "Error"
  message : String
  status : Option Nat := none
deriving DecidableEq, Repr

def errRequired : JsError := ⟨"Error", "username and password is required", some 400⟩

def errRegistered : JsError := ⟨"Error", "username is already registered", some 409⟩

def errUnauthorized : JsError := ⟨"Error", "unauthorized access", some 401⟩

def errMaxUsers : JsError := ⟨"Error", "maximum amount of users reached", some 403⟩

def errUriSafe : JsError := ⟨"Error", "username should not contain non-uri-safe characters", some 409⟩

/-- TypeError raised by JavaScript when `groupsObj[groupName]` is `undefined`
and the code calls `.includes` on it (`addUserToHTGroup`). -/
def errTypeIncludes : JsError := ⟨"TypeError", "cannot read property includes of undefined", none⟩

/-! ## JavaScript string primitives -/

/-- Split of a character list at every occurrence of `sep`; the JavaScript
`String.prototype.split` with a one-character separator.  Always returns at
least one group; the empty input yields `[[]]`, matching `"".split(c) = [""]`. -/
def splitCharList (sep : Char) : List Char → List (List Char)
  | [] => [[]]
  | c :: cs =>
    match splitCharList sep cs with
    | [] => [[]]
    | g :: gs => if c = sep then [] :: g :: gs else (c :: g) :: gs

/-- JavaScript `s.split(sep)` for a one-character separator. -/
def jsSplit (sep : Char) (s : String) : List String :=
  (splitCharList sep s.toList).map String.mk

/-- Boolean test that `pre` is an initial segment of `s`, character lists. -/
def leadsWith : List Char → List Char → Bool
  | [], _ => true
  | _ :: _, [] => false
  | p :: ps, c :: cs => p == c && leadsWith ps cs

/-- JavaScript `s.indexOf(pre) === 0` / the `^...` anchored regex tests used by
`verifyPassword`. -/
def strLeads (pre s : String) : Bool :=
  leadsWith pre.toList s.toList

/-- JavaScript `s.substr(n)`. -/
def strDrop (s : String) (n : Nat) : String :=
  String.mk (s.toList.drop n)

/-- JavaScript `s[s.length - 1]` guarded by `s.length`. -/
def lastChar (s : String) : Option Char :=
  s.toList.getLast?

/-- JavaScript `Array.prototype.join(' ')`. -/
def joinSp (l : List String) : String :=
  match l with
  | [] => ""
  | x :: xs => xs.foldl (fun a b => a ++ " " ++ b) x

/-- Concatenation of a list of strings. -/
def strConcat (l : List String) : String :=
  l.foldl (fun a b => a ++ b) ""

/-! ## encodeURIComponent -/

/-- Uppercase hexadecimal digit, used by percent-encoding. -/
def hexDigit (n : Nat) : Char :=
  if n < 10 then Char.ofNat (48 + n) else Char.ofNat (55 + n)

/-- UTF-8 byte sequence of a code point, as ECMAScript `encodeURIComponent`
encodes characters outside its unescaped set. -/
def utf8Bytes (n : Nat) : List Nat :=
  if n < 128 then [n]
  else if n < 2048 then [192 + n / 64, 128 + n % 64]
  else if n < 65536 then [224 + n / 4096, 128 + (n / 64) % 64, 128 + n % 64]
  else [240 + n / 262144, 128 + (n / 4096) % 64, 128 + (n / 64) % 64, 128 + n % 64]

/-- Percent-encoding `%XX` of one byte. -/
def pctByte (b : Nat) : String :=
  String.mk ['%', hexDigit (b / 16), hexDigit (b % 16)]

/-- Characters `encodeURIComponent` leaves unescaped:
`A-Z a-z 0-9 - _ . ! ~ * ' ( )`. -/
def uriUnescaped (c : Char) : Bool :=
  let n := c.toNat
  (65 ≤ n && n ≤ 90) || (97 ≤ n && n ≤ 122) || (48 ≤ n && n ≤ 57) ||
    [45, 95, 46, 33, 126, 42, 39, 40, 41].contains n

/-- ECMAScript `encodeURIComponent`: unescaped characters are kept, every
other character is replaced by the percent-encoding of its UTF-8 bytes. -/
def encodeURIComponent (s : String) : String :=
  s.toList.foldl
    (fun acc c =>
      acc ++ (if uriUnescaped c then String.mk [c]
              else strConcat ((utf8Bytes c.toNat).map pctByte)))
    ""

/-! ## JavaScript objects as insertion-ordered association lists -/

/-- Key membership in an association list. -/
def containsKey {α : Type} (m : List (String × α)) (k : String) : Bool :=
  m.any (fun p => p.1 == k)

/-- Lookup returning the first binding of a key. -/
def lookupVal {α : Type} (m : List (String × α)) (k : String) : Option α :=
  match m with
  | [] => none
  | p :: rest => if p.1 = k then some p.2 else lookupVal rest k

/-- JavaScript `obj[k] = v`: an existing key keeps its position and gets the
new value, a new key is appended at the end. -/
def upsert {α : Type} : List (String × α) → String → α → List (String × α)
  | [], k, v => [(k, v)]
  | p :: rest, k, v => if p.1 = k then (k, v) :: rest else p :: upsert rest k v

/-- JavaScript `Object.assign(target, src)`: every binding of `src`, in
order, is written into `target`. -/
def objAssign {α : Type} (target src : List (String × α)) : List (String × α) :=
  src.foldl (fun t p => upsert t p.1 p.2) target

/-- Merge-lookup semantics a reader expects of `Object.assign`: the value
from `src` when the key is bound there, the value from `tgt` otherwise. -/
def mergeLookup {α : Type} (src tgt : List (String × α)) (k : String) : Option α :=
  match lookupVal src k with
  | some v => some v
  | none => lookupVal tgt k

/-! ## utils.js: parsing and serialization -/

/-- One reduction step of `parseHTPasswd`: `line.split(':', 3)`; lines with
fewer than two fields are skipped. -/
def parseHTPasswdStep (result : List (String × String)) (line : String) :
    List (String × String) :=
  match (jsSplit ':' line).take 3 with
  | a0 :: a1 :: _ => upsert result a0 a1
  | _ => result

/-- Embedding of `parseHTPasswd` (utils.js): split the input on newlines and
keep, for each line with at least two `:`-fields, the first field as the
username and the second as the hash. -/
def parseHTPasswd (input : String) : List (String × String) :=
  (jsSplit '\n' input).foldl parseHTPasswdStep []

/-- One reduction step of `parseHTgroup`: `line.split(':', 2)`; a line with
no colon still produces an entry, keyed by the whole line, with an empty
member list. -/
def parseHTgroupStep (result : List (String × List String)) (line : String) :
    List (String × List String) :=
  match (jsSplit ':' line).take 2 with
  | a0 :: a1 :: _ => upsert result a0 (jsSplit ' ' a1)
  | [a0] => upsert result a0 []
  | [] => result

/-- Embedding of `parseHTgroup` (utils.js). -/
def parseHTgroup (input : String) : List (String × List String) :=
  (jsSplit '\n' input).foldl parseHTgroupStep []

/-- Embedding of `serializeHTgroups` (utils.js): concatenates
`groupName ++ ": " ++ members.join(' ')` for every group, with no separator
between records. -/
def serializeHTgroups (g : List (String × List String)) : String :=
  g.foldl (fun body p => body ++ p.1 ++ ": " ++ joinSp p.2) ""

/-! ## utils.js: password hashing and verification -/

/-- External cryptographic libraries used by utils.js, taken as parameters:
`bcrypt.compareSync`, SHA-1 + base64 from `crypto`, `apache-md5`, and the
two-argument (salt-extracting) form of `crypt3`. -/
structure CryptoPrims where
  bcryptCompare : String → String → Bool
  sha1b64 : String → String
  md5crypt : String → String → String
  crypt3check : String → String → String

/-- Test for the anchored regex `^\$2(a|b|y)\$` of `verifyPassword`. -/
def isBcryptHash (h : String) : Bool :=
  strLeads "$2a$" h || strLeads "$2b$" h || strLeads "$2y$" h

/-- Embedding of `verifyPassword` (utils.js). -/
def verifyPassword (P : CryptoPrims) (passwd hash : String) : Bool :=
  if isBcryptHash hash then P.bcryptCompare passwd hash
  else if strLeads "{PLAIN}" hash then passwd == strDrop hash 7
  else if strLeads "{SHA}" hash then P.sha1b64 passwd == strDrop hash 5
  else P.md5crypt passwd hash == hash || P.crypt3check passwd hash == hash

/-- Scheme dispatch as the specification sentences for C3 describe it,
written from those words for comparison with `verifyPassword`: selection is
purely syntactic on the stored hash, in this order: a bcrypt marker prefix
uses bcrypt comparison; otherwise a `{PLAIN}` marker strips the marker and
compares the remainder with the plaintext; otherwise a `{SHA}` marker
compares the base64-encoded SHA-1 digest of the plaintext with the
remainder; otherwise the MD5-crypt of the plaintext is compared with the
stored hash and, only when that does not match, the DES crypt(3). -/
def verifyPasswordSpec (P : CryptoPrims) (passwd hash : String) : Bool :=
  let cs := hash.toList
  if cs.take 4 = "$2a$".toList ∨ cs.take 4 = "$2b$".toList ∨ cs.take 4 = "$2y$".toList then
    P.bcryptCompare passwd hash
  else if cs.take 7 = "{PLAIN}".toList then passwd == String.mk (cs.drop 7)
  else if cs.take 5 = "{SHA}".toList then P.sha1b64 passwd == String.mk (cs.drop 5)
  else if P.md5crypt passwd hash == hash then true
  else P.crypt3check passwd hash == hash

/-- Embedding of `addUserToHTPasswd` (utils.js): rejects a username that is
not equal to its own percent-encoding, hashes the password with `crypt3`
when that module is available and with the `{SHA}` fallback otherwise, and
appends `user:hash:autocreated <now>\n`, inserting a newline first when the
existing body does not already end with one. -/
def addUserToHTPasswd (crypt3gen : Option (String → String)) (P : CryptoPrims)
    (now body user passwd : String) : Except JsError String :=
  if user ≠ encodeURIComponent user then .error errUriSafe
  else
    let hashed := match crypt3gen with
      | some f => f passwd
      | none => "{SHA}" ++ P.sha1b64 passwd
    let comment := "autocreated " ++ now
    let newline := user ++ ":" ++ hashed ++ ":" ++ comment ++ "\n"
    let newline := if body ≠ "" ∧ lastChar body ≠ some '\n' then "\n" ++ newline else newline
    .ok (body ++ newline)

/-- Truthiness of `users[user]` in `sanityCheck`: present and non-empty. -/
def truthy (s : Option String) : Bool :=
  match s with
  | none => false
  | some v => v != ""

/-- JavaScript `Object.keys(users).length >= maxUsers`, where `maxUsers` may
be `Infinity` (modelled as `none`). -/
def maxReached (count : Nat) (maxUsers : Option Int) : Bool :=
  match maxUsers with
  | none => false
  | some m => m ≤ (count : Int)

/-- Embedding of `sanityCheck` (utils.js). -/
def sanityCheck (user password : String) (verifyFn : String → String → Bool)
    (users : List (String × String)) (maxUsers : Option Int) : Option JsError :=
  if user = "" ∨ password = "" then some errRequired
  else
    let hash := lookupVal users user
    if truthy hash then
      if verifyFn password (hash.getD "") then some errRegistered
      else some errUnauthorized
    else if maxReached users.length maxUsers then some errMaxUsers
    else none

/-! ## utils.js: groups -/

/-- Loop body of `addUserToHTGroup`: `groupsObj[groupName]` is looked up and
`.includes` is called on the result; when the group is absent this is a
TypeError, which propagates out of `forEach`. -/
def addUserToHTGroupGo (user : String) :
    List String → Bool × List (String × List String) →
    Except JsError (Bool × List (String × List String))
  | [], acc => .ok acc
  | groupName :: rest, (modified, g) =>
    match lookupVal g groupName with
    | none => .error errTypeIncludes
    | some groupUsers =>
      if groupUsers.contains user then addUserToHTGroupGo user rest (modified, g)
      else addUserToHTGroupGo user rest (true, upsert g groupName (groupUsers ++ [user]))

/-- Embedding of `addUserToHTGroup` (utils.js): rejects a non-URI-safe
username, then for each requested group name adds the user to the group's
member list if not already present, reporting whether anything changed. -/
def addUserToHTGroup (g : List (String × List String)) (user : String)
    (groups : List String) : Except JsError (Bool × List (String × List String)) :=
  if user ≠ encodeURIComponent user then .error errUriSafe
  else addUserToHTGroupGo user groups (false, g)

/-- Embedding of `getGroupsForUser` (utils.js): starts from `[user]` and
pushes every group name whose member list contains the user. -/
def getGroupsForUser (g : List (String × List String)) (user : String) : List String :=
  g.foldl (fun acc p => if p.2.contains user then acc ++ [p.1] else acc) [user]

/-! ## htpasswd.js: the adduser control flow

The callback-driven `adduser` method acquires a lock while reading the file,
runs the sanity check twice (once on the stale in-memory map, once after
re-reading), appends the record and writes the file.  Each outcome of the
asynchronous steps is passed in explicitly; the emitted `trace` records the
externally visible effects in order. -/

/-- Outcome of `lockAndRead`: success with the file contents, an `ENOENT`
error (treated as an empty file, lock not held), or another error. -/
inductive LockReadOut where
  | lockOk (content : String)
  | lockEnoent
  | lockErr (e : JsError)
deriving DecidableEq, Repr

/-- Externally visible events of one `adduser` call, in order: release of the
file lock, the `fs.writeFile` call, the `this.reload` call, and the final
invocation of the caller's callback with `(err, !err)`. -/
inductive Ev where
  | unlock
  | fsWrite
  | reloadUsers
  | realCb (err : Option JsError) (ok : Bool)
deriving DecidableEq, Repr

/-- Result of one `adduser` call: the `(err, ok)` pair passed to the caller's
callback, the event trace, and the contents written to the file when the
write happened and succeeded. -/
structure AdduserOut where
  result : Option JsError × Bool
  trace : List Ev
  fileWritten : Option String
deriving DecidableEq, Repr

/-- The `cb` closure of `adduser`: when the lock is held it is released first
(the unlock callback ignores any unlock error) and then the caller's callback
receives `(err, !err)`. -/
def adduserCb (locked : Bool) (e : Option JsError) : (Option JsError × Bool) × List Ev :=
  ((e, e.isNone),
    if locked then [Ev.unlock, Ev.realCb e e.isNone] else [Ev.realCb e e.isNone])

/-- Continuation of `adduser` after `lockAndRead` returned: re-parse the body,
re-run the sanity check, append the record (which may throw the URI-safety
error), then write the file and reload on success. -/
def adduserLocked (P : CryptoPrims) (crypt3gen : Option (String → String)) (now : String)
    (maxUsers : Option Int) (user password : String) (locked : Bool) (body : String)
    (writeErr : Option JsError) : AdduserOut :=
  match sanityCheck user password (verifyPassword P) (parseHTPasswd body) maxUsers with
  | some e =>
    let c := adduserCb locked (some e)
    ⟨c.1, c.2, none⟩
  | none =>
    match addUserToHTPasswd crypt3gen P now body user password with
    | .error e =>
      let c := adduserCb locked (some e)
      ⟨c.1, c.2, none⟩
    | .ok newBody =>
      match writeErr with
      | some e =>
        let c := adduserCb locked (some e)
        ⟨c.1, Ev.fsWrite :: c.2, none⟩
      | none =>
        let c := adduserCb locked none
        ⟨c.1, Ev.fsWrite :: Ev.reloadUsers :: c.2, some newBody⟩

/-- Embedding of `HTPasswd.adduser` (htpasswd.js).  The preliminary sanity
check runs against the in-memory `users0`; a non-`ENOENT` lock error is
reported without unlocking (the lock was never acquired); otherwise the lock
is held exactly when the read succeeded, and the rest of the flow runs on the
freshly read body (`""` after `ENOENT`).  `unlockErr` is the error the unlock
callback would receive; the code ignores it. -/
def adduser (P : CryptoPrims) (crypt3gen : Option (String → String)) (now : String)
    (maxUsers : Option Int) (users0 : List (String × String)) (user password : String)
    (readRes : LockReadOut) (writeErr : Option JsError) (_unlockErr : Option JsError) :
    AdduserOut :=
  match sanityCheck user password (verifyPassword P) users0 maxUsers with
  | some e => ⟨(some e, false), [Ev.realCb (some e) false], none⟩
  | none =>
    match readRes with
    | .lockErr e => ⟨(some e, false), [Ev.realCb (some e) false], none⟩
    | .lockOk content => adduserLocked P crypt3gen now maxUsers user password true content writeErr
    | .lockEnoent => adduserLocked P crypt3gen now maxUsers user password false "" writeErr

/-! ## htpasswd.js: reload and reloadGroups -/

/-- Outcome of `fs.stat`. -/
inductive StatOut where
  | statErr (e : JsError)
  | statOk (mtime : Int)
deriving DecidableEq, Repr

/-- Outcome of `fs.readFile`. -/
inductive FileReadOut where
  | readErr (e : JsError)
  | readOk (content : String)
deriving DecidableEq, Repr

/-- Result of `reload` / `reloadGroups`: the in-memory map, the last-seen
modification time, and the error passed to the callback, if any. -/
structure ReloadOut (α : Type) where
  map : List (String × α)
  lastTime : Option Int
  err : Option JsError
deriving DecidableEq, Repr

/-- Embedding of `HTPasswd.reload` (htpasswd.js): stat the file; when the
modification time equals the last-seen value do nothing; otherwise record the
new time, read the file, and `Object.assign` the parsed content into the
in-memory user map. -/
def reload (users : List (String × String)) (lastTime : Option Int)
    (st : StatOut) (rd : FileReadOut) : ReloadOut String :=
  match st with
  | .statErr e => ⟨users, lastTime, some e⟩
  | .statOk m =>
    if lastTime = some m then ⟨users, lastTime, none⟩
    else
      match rd with
      | .readErr e => ⟨users, some m, some e⟩
      | .readOk content => ⟨objAssign users (parseHTPasswd content), some m, none⟩

/-- Embedding of `HTPasswd.reloadGroups` (htpasswd.js); identical to `reload`
with the group file and `parseHTgroup`. -/
def reloadGroups (groups : List (String × List String)) (lastTimeGroup : Option Int)
    (st : StatOut) (rd : FileReadOut) : ReloadOut (List String) :=
  match st with
  | .statErr e => ⟨groups, lastTimeGroup, some e⟩
  | .statOk m =>
    if lastTimeGroup = some m then ⟨groups, lastTimeGroup, none⟩
    else
      match rd with
      | .readErr e => ⟨groups, some m, some e⟩
      | .readOk content => ⟨objAssign groups (parseHTgroup content), some m, none⟩

/-! ## Concrete stand-ins for external libraries

These are used only to evaluate theorems at concrete inputs; no result below
depends on the actual digests the real libraries would produce. -/

/-- Concrete stand-in for the external cryptographic libraries. -/
def toyPrims : CryptoPrims :=
  ⟨fun _ _ => false, fun s => "B64" ++ s, fun p h => "MD5" ++ p ++ h, fun p h => "C3" ++ p ++ h⟩

/-- Modelled from the spec: the one-argument form of the repository's
`crypt3` module (whose source is not available here) produces a
crypt(3)-style salted hash in `$id$salt$digest` form; the digest itself is
replaced by a stand-in, which no result below depends on. -/
def cryptStub (p : String) : String :=
  "$1$stub$" ++ p

/-! ## Lemmas about the map operations -/

/-- Keys of an association list, in order. -/
def keysOf {α : Type} (m : List (String × α)) : List String :=
  m.map Prod.fst

theorem lookupVal_upsert {α : Type} (m : List (String × α)) (k : String) (v : α)
    (k' : String) :
    lookupVal (upsert m k v) k' = if k' = k then some v else lookupVal m k' := by
  induction m with
  | nil =>
    by_cases h : k' = k
    · simp [upsert, lookupVal, h]
    · have h2 : ¬k = k' := fun e => h e.symm
      simp [upsert, lookupVal, h, h2]
  | cons p rest ih =>
    obtain ⟨p1, p2⟩ := p
    by_cases hp : p1 = k
    · subst hp
      by_cases h : k' = p1
      · simp [upsert, lookupVal, h]
      · have h2 : ¬p1 = k' := fun e => h e.symm
        simp [upsert, lookupVal, h, h2]
    · by_cases h : p1 = k'
      · have h2 : ¬k' = k := fun e => hp (h.trans e)
        simp [upsert, lookupVal, hp, h, h2]
      · simp [upsert, lookupVal, hp, h, ih]

theorem containsKey_upsert_self {α : Type} (m : List (String × α)) (k : String) (v : α) :
    containsKey (upsert m k v) k = true := by
  induction m with
  | nil => simp [upsert, containsKey]
  | cons p rest ih =>
    obtain ⟨p1, p2⟩ := p
    by_cases hp : p1 = k
    · subst hp; simp [upsert, containsKey]
    · simp only [upsert, hp, ite_false, containsKey, List.any_cons]
      have : (upsert rest k v).any (fun p => p.1 == k) = true := ih
      simp [this]

theorem containsKey_upsert_of {α : Type} (m : List (String × α)) (k : String) (v : α)
    (k' : String) (h : containsKey m k' = true) :
    containsKey (upsert m k v) k' = true := by
  induction m with
  | nil => simp [containsKey] at h
  | cons p rest ih =>
    obtain ⟨p1, p2⟩ := p
    simp only [containsKey, List.any_cons, Bool.or_eq_true, beq_iff_eq] at h
    by_cases hp : p1 = k
    · subst hp
      rcases h with h | h
      · simp [upsert, containsKey, h]
      · simp only [upsert, ite_true, containsKey, List.any_cons, Bool.or_eq_true]
        exact Or.inr (by simpa [containsKey] using h)
    · simp only [upsert, hp, ite_false, containsKey, List.any_cons, Bool.or_eq_true]
      rcases h with h | h
      · exact Or.inl (by simp [h])
      · exact Or.inr (by simpa [containsKey] using ih (by simpa [containsKey] using h))

theorem mem_keysOf_upsert {α : Type} (m : List (String × α)) (k : String) (v : α)
    (x : String) :
    x ∈ keysOf (upsert m k v) ↔ x = k ∨ x ∈ keysOf m := by
  induction m with
  | nil => simp [upsert, keysOf]
  | cons p rest ih =>
    obtain ⟨p1, p2⟩ := p
    by_cases hp : p1 = k
    · subst hp
      simp only [upsert, ite_true, keysOf, List.map_cons, List.mem_cons]
      tauto
    · simp only [upsert, hp, ite_false, keysOf, List.map_cons, List.mem_cons]
      have ih' : x ∈ keysOf (upsert rest k v) ↔ x = k ∨ x ∈ keysOf rest := ih
      simp only [keysOf] at ih'
      rw [ih']
      tauto

theorem keysOf_upsert_nodup {α : Type} (m : List (String × α)) (k : String) (v : α)
    (h : (keysOf m).Nodup) : (keysOf (upsert m k v)).Nodup := by
  induction m with
  | nil => simp [upsert, keysOf]
  | cons p rest ih =>
    obtain ⟨p1, p2⟩ := p
    simp only [keysOf, List.map_cons, List.nodup_cons] at h
    by_cases hp : p1 = k
    · subst hp
      simp only [upsert, ite_true, keysOf, List.map_cons, List.nodup_cons]
      exact ⟨h.1, h.2⟩
    · simp only [upsert, hp, ite_false, keysOf, List.map_cons, List.nodup_cons]
      refine ⟨?_, ih h.2⟩
      intro hmem
      rcases (mem_keysOf_upsert rest k v p1).mp hmem with h1 | h1
      · exact hp h1
      · exact h.1 h1

theorem lookupVal_eq_none_of_not_mem {α : Type} (m : List (String × α)) (k : String)
    (h : k ∉ keysOf m) : lookupVal m k = none := by
  induction m with
  | nil => rfl
  | cons p rest ih =>
    obtain ⟨p1, p2⟩ := p
    simp only [keysOf, List.map_cons, List.mem_cons] at h
    push_neg at h
    have h1 : ¬p1 = k := fun e => h.1 e.symm
    have h2 : k ∉ keysOf rest := by simpa [keysOf] using h.2
    simp [lookupVal, h1, ih h2]

theorem lookupVal_objAssign {α : Type} (src : List (String × α)) :
    ∀ (tgt : List (String × α)) (k : String), (keysOf src).Nodup →
      lookupVal (objAssign tgt src) k = mergeLookup src tgt k := by
  induction src with
  | nil => intro tgt k _; simp [objAssign, lookupVal, mergeLookup]
  | cons p rest ih =>
    intro tgt k hnd
    obtain ⟨p1, p2⟩ := p
    simp only [keysOf, List.map_cons, List.nodup_cons] at hnd
    have hstep : objAssign tgt ((p1, p2) :: rest) = objAssign (upsert tgt p1 p2) rest := rfl
    rw [hstep, ih _ k (by simpa [keysOf] using hnd.2)]
    unfold mergeLookup
    by_cases hk : k = p1
    · have hrest : lookupVal rest k = none :=
        lookupVal_eq_none_of_not_mem _ _ (by simpa [keysOf, hk] using hnd.1)
      have hhead : lookupVal ((p1, p2) :: rest) k = some p2 := by
        simp [lookupVal, hk.symm]
      rw [hrest, hhead, lookupVal_upsert]
      simp [hk]
    · have h1 : ¬p1 = k := fun e => hk e.symm
      have hhead : lookupVal ((p1, p2) :: rest) k = lookupVal rest k := by
        simp [lookupVal, h1]
      rw [hhead, lookupVal_upsert]
      simp only [hk, ite_false]

/-! ## Lemmas about splitting and parsing -/

theorem strMk_toList (s : String) : String.mk s.toList = s := rfl

theorem splitCharList_ne_nil (sep : Char) (l : List Char) : splitCharList sep l ≠ [] := by
  cases l with
  | nil => simp [splitCharList]
  | cons c cs =>
    simp only [splitCharList]
    cases h : splitCharList sep cs with
    | nil => simp
    | cons g gs =>
      by_cases hc : c = sep <;> simp [hc]

theorem splitCharList_sep_cons (sep : Char) (m : List Char) :
    splitCharList sep (sep :: m) = [] :: splitCharList sep m := by
  simp only [splitCharList]
  cases h : splitCharList sep m with
  | nil => exact absurd h (splitCharList_ne_nil sep m)
  | cons g gs => simp

theorem splitCharList_cons_of_ne (sep c : Char) (m : List Char) (hc : c ≠ sep) :
    splitCharList sep (c :: m) =
      (c :: (splitCharList sep m).headI) :: (splitCharList sep m).tail := by
  simp only [splitCharList]
  cases h : splitCharList sep m with
  | nil => exact absurd h (splitCharList_ne_nil sep m)
  | cons g gs => simp [hc]

theorem splitCharList_no_sep (sep : Char) (l : List Char) (h : sep ∉ l) :
    splitCharList sep l = [l] := by
  induction l with
  | nil => rfl
  | cons c cs ih =>
    have hc : c ≠ sep := fun e => h (by simp [e])
    have hcs : sep ∉ cs := fun hm => h (List.mem_cons_of_mem _ hm)
    rw [splitCharList_cons_of_ne sep c cs hc, ih hcs]
    simp

theorem splitCharList_append_sep (sep : Char) (l m : List Char) (h : sep ∉ l) :
    splitCharList sep (l ++ sep :: m) = l :: splitCharList sep m := by
  induction l with
  | nil => simpa using splitCharList_sep_cons sep m
  | cons c cs ih =>
    have hc : c ≠ sep := fun e => h (by simp [e])
    have hcs : sep ∉ cs := fun hm => h (List.mem_cons_of_mem _ hm)
    rw [List.cons_append, splitCharList_cons_of_ne sep c _ hc, ih hcs]
    simp

theorem parseHTPasswd_foldl_keys_nodup (lines : List String) :
    ∀ acc : List (String × String), (keysOf acc).Nodup →
      (keysOf (lines.foldl parseHTPasswdStep acc)).Nodup := by
  induction lines with
  | nil => intro acc h; simpa using h
  | cons line rest ih =>
    intro acc h
    simp only [List.foldl_cons]
    apply ih
    unfold parseHTPasswdStep
    split
    · exact keysOf_upsert_nodup _ _ _ h
    · exact h

theorem parseHTPasswd_keys_nodup (s : String) : (keysOf (parseHTPasswd s)).Nodup := by
  unfold parseHTPasswd
  exact parseHTPasswd_foldl_keys_nodup _ [] (by simp [keysOf])

theorem parseHTgroup_foldl_keys_nodup (lines : List String) :
    ∀ acc : List (String × List String), (keysOf acc).Nodup →
      (keysOf (lines.foldl parseHTgroupStep acc)).Nodup := by
  induction lines with
  | nil => intro acc h; simpa using h
  | cons line rest ih =>
    intro acc h
    simp only [List.foldl_cons]
    apply ih
    unfold parseHTgroupStep
    split
    · exact keysOf_upsert_nodup _ _ _ h
    · exact keysOf_upsert_nodup _ _ _ h
    · exact h

theorem parseHTgroup_keys_nodup (s : String) : (keysOf (parseHTgroup s)).Nodup := by
  unfold parseHTgroup
  exact parseHTgroup_foldl_keys_nodup _ [] (by simp [keysOf])

theorem parseHTgroup_foldl_containsKey (lines : List String) :
    ∀ (acc : List (String × List String)) (k : String), containsKey acc k = true →
      containsKey (lines.foldl parseHTgroupStep acc) k = true := by
  induction lines with
  | nil => intro acc k h; simpa using h
  | cons line rest ih =>
    intro acc k h
    simp only [List.foldl_cons]
    apply ih
    unfold parseHTgroupStep
    split
    · exact containsKey_upsert_of _ _ _ _ h
    · exact containsKey_upsert_of _ _ _ _ h
    · exact h

/-- A line with no colon splits into the single field consisting of the
whole line, so `parseHTgroupStep` records it with an empty member list. -/
theorem parseHTgroupStep_no_colon (acc : List (String × List String)) (line : String)
    (h : ':' ∉ line.toList) :
    parseHTgroupStep acc line = upsert acc line [] := by
  have hsplit : jsSplit ':' line = [line] := by
    unfold jsSplit
    rw [splitCharList_no_sep ':' line.toList h]
    rfl
  unfold parseHTgroupStep
  rw [hsplit]
  rfl

theorem leadsWith_iff (p : List Char) : ∀ s : List Char,
    leadsWith p s = true ↔ s.take p.length = p := by
  induction p with
  | nil => intro s; simp [leadsWith]
  | cons a ps ih =>
    intro s
    cases s with
    | nil => simp [leadsWith]
    | cons c cs =>
      simp only [leadsWith, Bool.and_eq_true, beq_iff_eq, ih, List.length_cons,
        List.take_succ_cons, List.cons.injEq]
      constructor
      · rintro ⟨h1, h2⟩; exact ⟨h1.symm, h2⟩
      · rintro ⟨h1, h2⟩; exact ⟨h1.symm, h2⟩

/-- C3: `verifyPassword` selects the hashing scheme purely syntactically, in
the order bcrypt marker (`$2a$`, `$2b$`, `$2y$`), then `{PLAIN}` with exact
equality of the remainder, then `{SHA}` with the base64-encoded SHA-1 digest
of the plaintext against the remainder, then MD5-crypt with the embedded
salt and, only when that does not match, DES crypt(3); it agrees with the
dispatch the specification describes on every input. -/
theorem verifyPassword_scheme_dispatch (P : CryptoPrims) (passwd hash : String) :
    verifyPassword P passwd hash = verifyPasswordSpec P passwd hash := by
  have h2a : strLeads "$2a$" hash = true ↔ hash.toList.take 4 = "$2a$".toList := by
    unfold strLeads; rw [leadsWith_iff]; exact Iff.rfl
  have h2b : strLeads "$2b$" hash = true ↔ hash.toList.take 4 = "$2b$".toList := by
    unfold strLeads; rw [leadsWith_iff]; exact Iff.rfl
  have h2y : strLeads "$2y$" hash = true ↔ hash.toList.take 4 = "$2y$".toList := by
    unfold strLeads; rw [leadsWith_iff]; exact Iff.rfl
  have hpl : strLeads "{PLAIN}" hash = true ↔ hash.toList.take 7 = "{PLAIN}".toList := by
    unfold strLeads; rw [leadsWith_iff]; exact Iff.rfl
  have hsh : strLeads "{SHA}" hash = true ↔ hash.toList.take 5 = "{SHA}".toList := by
    unfold strLeads; rw [leadsWith_iff]; exact Iff.rfl
  unfold verifyPassword verifyPasswordSpec isBcryptHash
  by_cases hb : hash.toList.take 4 = "$2a$".toList ∨ hash.toList.take 4 = "$2b$".toList ∨
      hash.toList.take 4 = "$2y$".toList
  · have hcode : (strLeads "$2a$" hash || strLeads "$2b$" hash || strLeads "$2y$" hash) = true := by
      rcases hb with h | h | h
      · simp [h2a.mpr h]
      · simp [h2b.mpr h]
      · simp [h2y.mpr h]
    simp only [hcode, hb, if_true, ite_true, if_pos]
  · have n1 : strLeads "$2a$" hash = false := by
      cases hx : strLeads "$2a$" hash
      · rfl
      · exact absurd (h2a.mp hx) (by tauto)
    have n2 : strLeads "$2b$" hash = false := by
      cases hx : strLeads "$2b$" hash
      · rfl
      · exact absurd (h2b.mp hx) (by tauto)
    have n3 : strLeads "$2y$" hash = false := by
      cases hx : strLeads "$2y$" hash
      · rfl
      · exact absurd (h2y.mp hx) (by tauto)
    simp only [n1, n2, n3, Bool.or_false, Bool.false_or, hb, ite_false,
      Bool.false_eq_true, if_false]
    by_cases hp : hash.toList.take 7 = "{PLAIN}".toList
    · simp only [hpl.mpr hp, hp, ite_true]
      rfl
    · have np : strLeads "{PLAIN}" hash = false := by
        cases hx : strLeads "{PLAIN}" hash
        · rfl
        · exact absurd (hpl.mp hx) hp
      simp only [np, hp, ite_false, Bool.false_eq_true, if_false]
      by_cases hs : hash.toList.take 5 = "{SHA}".toList
      · simp only [hsh.mpr hs, hs, ite_true]
        rfl
      · have ns : strLeads "{SHA}" hash = false := by
          cases hx : strLeads "{SHA}" hash
          · rfl
          · exact absurd (hsh.mp hx) hs
        simp only [ns, hs, ite_false, Bool.false_eq_true, if_false]
        cases hm : (P.md5crypt passwd hash == hash) <;> simp [hm]

theorem getGroupsForUser_foldl (user : String) (g : List (String × List String)) :
    ∀ acc : List String,
      g.foldl (fun a p => if p.2.contains user then a ++ [p.1] else a) acc
        = acc ++ (g.filter (fun p => p.2.contains user)).map Prod.fst := by
  induction g with
  | nil => intro acc; simp
  | cons p rest ih =>
    intro acc
    rw [List.foldl_cons, List.filter_cons]
    cases h : p.2.contains user with
    | false =>
      rw [if_neg (by simp [h]), if_neg (by simp [h])]
      exact ih acc
    | true =>
      rw [if_pos rfl, if_pos rfl, ih, List.map_cons, List.append_assoc]
      rfl

/-- C6: `getGroupsForUser` returns a non-empty list whose first element is
the user itself (the implicit self-group), followed by exactly the group
names, in map iteration order, whose member lists contain the user. -/
theorem getGroupsForUser_self_first (g : List (String × List String)) (user : String) :
    getGroupsForUser g user
        = user :: (g.filter (fun p => p.2.contains user)).map Prod.fst ∧
      getGroupsForUser g user ≠ [] ∧
      (getGroupsForUser g user).head? = some user := by
  have main : getGroupsForUser g user
      = user :: (g.filter (fun p => p.2.contains user)).map Prod.fst := by
    unfold getGroupsForUser
    rw [getGroupsForUser_foldl]
    simp
  exact ⟨main, by simp [main], by simp [main]⟩

/-- C2: contrary to the specification, `addUserToHTGroup` faults when a
requested group name has no entry in the map: `groupsObj[groupName]` is
`undefined` and calling `.includes` on it raises a TypeError instead of
creating the group with an empty member list.  Here the group map is the
parse of an empty group file and the single requested group `admins` is
absent from it. -/
theorem addUserToHTGroup_missing_group_type_error :
    addUserToHTGroup (parseHTgroup "") "alice" ["admins"] = .error errTypeIncludes := by
  rfl

/-- C7 counterexample: the group-format round-trip does not return the same
map; the serialized form of `{g: ["a","b"]}` is `"g: a b"` and parsing it
splits the field after the colon, `" a b"`, on single spaces, so the member
list comes back as `["", "a", "b"]`, not `["a", "b"]`. -/
theorem group_roundtrip_not_identity :
    lookupVal (parseHTgroup (serializeHTgroups [("g", ["a", "b"])])) "g"
      ≠ some ["a", "b"] := by
  decide

/-- C7 (amended): parsing the serialized form of `{g: ["a","b"]}` yields the
map binding `g` to `["", "a", "b"]`: the original members preceded by one
empty-string member produced by the space after the colon. -/
theorem group_roundtrip_extra_empty_member :
    parseHTgroup (serializeHTgroups [("g", ["a", "b"])]) = [("g", ["", "a", "b"])] := by
  decide

theorem parseHTgroup_foldl_mem_line (line : String) (hcolon : ':' ∉ line.toList) :
    ∀ (lines : List String) (acc : List (String × List String)), line ∈ lines →
      containsKey (lines.foldl parseHTgroupStep acc) line = true := by
  intro lines
  induction lines with
  | nil => intro acc h; cases h
  | cons l rest ih =>
    intro acc hmem
    simp only [List.foldl_cons]
    rcases List.mem_cons.mp hmem with h | h
    · subst h
      apply parseHTgroup_foldl_containsKey
      rw [parseHTgroupStep_no_colon acc line hcolon]
      exact containsKey_upsert_self _ _ _
    · exact ih _ h

/-- C10: `parseHTgroup` never skips a line: every input line without a colon
becomes a map entry keyed by the whole line with an empty member list — in
particular the empty input yields the map binding the empty group name to an
empty member list — while `parseHTPasswd` silently drops colon-less lines
and yields the empty map for the same inputs. -/
theorem parseHTgroup_keeps_all_lines :
    parseHTgroup "" = [("", [])] ∧
    parseHTPasswd "" = [] ∧
    (∀ s : String, '\n' ∉ s.toList → ':' ∉ s.toList →
      parseHTgroup s = [(s, [])] ∧ parseHTPasswd s = []) ∧
    (∀ input line : String, line ∈ jsSplit '\n' input → ':' ∉ line.toList →
      containsKey (parseHTgroup input) line = true) := by
  refine ⟨by decide, by decide, ?_, ?_⟩
  · intro s h1 h2
    have hlines : jsSplit '\n' s = [s] := by
      unfold jsSplit
      rw [splitCharList_no_sep '\n' s.toList h1]
      rfl
    have hsplit : jsSplit ':' s = [s] := by
      unfold jsSplit
      rw [splitCharList_no_sep ':' s.toList h2]
      rfl
    constructor
    · unfold parseHTgroup
      rw [hlines]
      simp only [List.foldl_cons, List.foldl_nil]
      rw [parseHTgroupStep_no_colon [] s h2]
      rfl
    · unfold parseHTPasswd
      rw [hlines]
      simp only [List.foldl_cons, List.foldl_nil]
      unfold parseHTPasswdStep
      rw [hsplit]
      rfl
  · intro input line hmem hcolon
    unfold parseHTgroup
    exact parseHTgroup_foldl_mem_line line hcolon _ [] hmem

/-- C10 witness: a colon-less line in a two-line group file is kept as a
key, a colon-less single-line file maps the whole line to an empty member
list, and the same line is dropped by the user-file parser. -/
theorem parseHTgroup_keeps_all_lines_w :
    containsKey (parseHTgroup "foo\nbar: x") "foo" = true ∧
      parseHTgroup "adm" = [("adm", [])] ∧ parseHTPasswd "adm" = [] :=
  ⟨parseHTgroup_keeps_all_lines.2.2.2 "foo\nbar: x" "foo" (by decide) (by decide),
   parseHTgroup_keeps_all_lines.2.2.1 "adm" (by decide) (by decide)⟩

theorem strToList_append (a b : String) : (a ++ b).toList = a.toList ++ b.toList := rfl

/-- C9: `reload` is a conditional no-op and otherwise a merge: when the
file's modification time equals the last-seen value the in-memory map is
unchanged; otherwise the freshly parsed content is `Object.assign`-merged
into the existing map, parsed values overwriting existing keys while no key
present before the reload is removed; `reloadGroups` behaves the same for
the group map. -/
theorem reload_merge_semantics :
    ∀ (users : List (String × String)) (lt : Option Int) (m : Int) (rd : FileReadOut)
      (c : String) (groups : List (String × List String)) (ltg : Option Int) (mg : Int)
      (rdg : FileReadOut) (cg : String),
      (lt = some m → reload users lt (.statOk m) rd = ⟨users, lt, none⟩) ∧
      (lt ≠ some m →
        reload users lt (.statOk m) (.readOk c)
            = ⟨objAssign users (parseHTPasswd c), some m, none⟩ ∧
          (∀ k, lookupVal (objAssign users (parseHTPasswd c)) k =
            mergeLookup (parseHTPasswd c) users k) ∧
          (∀ k, (lookupVal users k).isSome →
            (lookupVal (objAssign users (parseHTPasswd c)) k).isSome)) ∧
      (ltg = some mg → reloadGroups groups ltg (.statOk mg) rdg = ⟨groups, ltg, none⟩) ∧
      (ltg ≠ some mg →
        reloadGroups groups ltg (.statOk mg) (.readOk cg)
            = ⟨objAssign groups (parseHTgroup cg), some mg, none⟩ ∧
          (∀ k, lookupVal (objAssign groups (parseHTgroup cg)) k =
            mergeLookup (parseHTgroup cg) groups k) ∧
          (∀ k, (lookupVal groups k).isSome →
            (lookupVal (objAssign groups (parseHTgroup cg)) k).isSome)) := by
  intro users lt m rd c groups ltg mg rdg cg
  refine ⟨?_, ?_, ?_, ?_⟩
  · intro h
    simp [reload, h]
  · intro h
    refine ⟨by simp [reload, h], ?_, ?_⟩
    · intro k
      exact lookupVal_objAssign _ users k (parseHTPasswd_keys_nodup c)
    · intro k hk
      rw [lookupVal_objAssign _ users k (parseHTPasswd_keys_nodup c)]
      unfold mergeLookup
      cases hr : lookupVal (parseHTPasswd c) k
      · simpa using hk
      · simp
  · intro h
    simp [reloadGroups, h]
  · intro h
    refine ⟨by simp [reloadGroups, h], ?_, ?_⟩
    · intro k
      exact lookupVal_objAssign _ groups k (parseHTgroup_keys_nodup cg)
    · intro k hk
      rw [lookupVal_objAssign _ groups k (parseHTgroup_keys_nodup cg)]
      unfold mergeLookup
      cases hr : lookupVal (parseHTgroup cg) k
      · simpa using hk
      · simp

/-- C9 witness: with an unchanged modification time the map is untouched
even though the file now holds a different record; with a changed time the
parsed file is merged over the old map. -/
theorem reload_merge_semantics_w :
    reload [("a", "1")] (some 3) (.statOk 3) (.readOk "a:2") = ⟨[("a", "1")], some 3, none⟩ ∧
      reload [("a", "1")] none (.statOk 5) (.readOk "a:9\nc:3")
        = ⟨objAssign [("a", "1")] (parseHTPasswd "a:9\nc:3"), some 5, none⟩ :=
  ⟨(reload_merge_semantics [("a", "1")] (some 3) 3 (.readOk "a:2") "" [] none 0
      (.readOk "") "").1 rfl,
   ((reload_merge_semantics [("a", "1")] none 5 (.readOk "") "a:9\nc:3" [] none 0
      (.readOk "") "").2.1 (by simp)).1⟩

/-- C8 (amended): serializing a record for `alice` into an empty body and
parsing the result yields a map binding `alice` to the stored hash computed
from the third argument — the `crypt3` hash of the password — not to the
password string itself; stated for every hash function whose output
contains no colon and no newline and every comment timestamp without a
newline. -/
theorem user_roundtrip_stores_hash (P : CryptoPrims) (hp : String → String) (now : String)
    (h1 : ':' ∉ (hp "hash").toList) (h2 : '\n' ∉ (hp "hash").toList)
    (h3 : '\n' ∉ now.toList) :
    Except.map parseHTPasswd (addUserToHTPasswd (some hp) P now "" "alice" "hash")
      = .ok [("alice", hp "hash")] := by
  have e1 : addUserToHTPasswd (some hp) P now "" "alice" "hash"
      = .ok ("alice" ++ ":" ++ hp "hash" ++ ":" ++ ("autocreated " ++ now) ++ "\n") := by
    have hne : ¬("alice" ≠ encodeURIComponent "alice") := by decide
    unfold addUserToHTPasswd
    rw [if_neg hne]
    rfl
  rw [e1]
  have hCn : ('\n' : Char) ∉ ("autocreated " ++ now).toList := by
    intro hmem
    exact h3 (by simpa [strToList_append] using hmem)
  have hlineN : ('\n' : Char) ∉
      ("alice".toList ++ ':' :: ((hp "hash").toList ++ ':' :: ("autocreated " ++ now).toList)) := by
    intro hmem
    simp only [List.mem_append, List.mem_cons] at hmem
    rcases hmem with h | h | h | h | h
    · exact absurd h (by decide)
    · exact absurd h (by decide)
    · exact h2 h
    · exact absurd h (by decide)
    · exact hCn h
  have hbody : ("alice" ++ ":" ++ hp "hash" ++ ":" ++ ("autocreated " ++ now) ++ "\n").toList
      = ("alice".toList ++ ':' :: ((hp "hash").toList ++ ':' :: ("autocreated " ++ now).toList))
          ++ '\n' :: [] := by
    simp [strToList_append]
  have hsplitN : jsSplit '\n' ("alice" ++ ":" ++ hp "hash" ++ ":" ++ ("autocreated " ++ now) ++ "\n")
      = [String.mk ("alice".toList ++ ':' :: ((hp "hash").toList ++ ':' ::
          ("autocreated " ++ now).toList)), ""] := by
    unfold jsSplit
    rw [hbody, splitCharList_append_sep '\n' _ _ hlineN]
    rfl
  have hsplitC : jsSplit ':' (String.mk ("alice".toList ++ ':' :: ((hp "hash").toList ++ ':' ::
      ("autocreated " ++ now).toList)))
      = "alice" :: hp "hash" ::
          (splitCharList ':' ("autocreated " ++ now).toList).map String.mk := by
    unfold jsSplit
    rw [show (String.mk ("alice".toList ++ ':' :: ((hp "hash").toList ++ ':' ::
        ("autocreated " ++ now).toList))).toList
        = "alice".toList ++ ':' :: ((hp "hash").toList ++ ':' ::
          ("autocreated " ++ now).toList) from rfl]
    rw [splitCharList_append_sep ':' _ _ (by decide),
      splitCharList_append_sep ':' _ _ h1]
    rfl
  obtain ⟨g, gs, hg⟩ : ∃ g gs, splitCharList ':' ("autocreated " ++ now).toList = g :: gs := by
    cases hsc : splitCharList ':' ("autocreated " ++ now).toList with
    | nil => exact absurd hsc (splitCharList_ne_nil _ _)
    | cons g gs => exact ⟨g, gs, rfl⟩
  have hstep1 : parseHTPasswdStep []
      (String.mk ("alice".toList ++ ':' :: ((hp "hash").toList ++ ':' ::
        ("autocreated " ++ now).toList))) = [("alice", hp "hash")] := by
    unfold parseHTPasswdStep
    rw [hsplitC, hg]
    rfl
  have : parseHTPasswd ("alice" ++ ":" ++ hp "hash" ++ ":" ++ ("autocreated " ++ now) ++ "\n")
      = [("alice", hp "hash")] := by
    unfold parseHTPasswd
    rw [hsplitN]
    simp only [List.foldl_cons, List.foldl_nil, hstep1]
    rfl
  rw [show Except.map parseHTPasswd (Except.ok ("alice" ++ ":" ++ hp "hash" ++ ":" ++
      ("autocreated " ++ now) ++ "\n") : Except JsError String)
      = Except.ok (parseHTPasswd ("alice" ++ ":" ++ hp "hash" ++ ":" ++
        ("autocreated " ++ now) ++ "\n")) from rfl, this]

/-- C8 witness: applying the round-trip theorem at the stand-in for the
`crypt3` hash function and a concrete timestamp. -/
theorem user_roundtrip_stores_hash_w :
    Except.map parseHTPasswd
      (addUserToHTPasswd (some cryptStub) toyPrims "2020-01-01T00:00:00.000Z" "" "alice" "hash")
      = .ok [("alice", cryptStub "hash")] :=
  user_roundtrip_stores_hash toyPrims cryptStub "2020-01-01T00:00:00.000Z"
    (by decide) (by decide) (by decide)

/-- C8 counterexample: the claim that the parsed map binds `alice` to the
literal string `hash` is false — the stored value is the hash of `hash`,
which is a `$`-prefixed crypt string, never the plaintext. -/
theorem user_roundtrip_literal_fails :
    (Except.map parseHTPasswd
        (addUserToHTPasswd (some cryptStub) toyPrims "2020-01-01T00:00:00.000Z" "" "alice" "hash")).toOption
      = some [("alice", "$1$stub$hash")] ∧ ("$1$stub$hash" : String) ≠ "hash" := by
  constructor
  · decide
  · decide

/-! ## Equation lemmas for the adduser control flow -/

theorem sanityCheck_eq (user password : String) (vf : String → String → Bool)
    (users : List (String × String)) (mu : Option Int) :
    sanityCheck user password vf users mu =
      if user = "" ∨ password = "" then some errRequired
      else if truthy (lookupVal users user) then
        (if vf password ((lookupVal users user).getD "") then some errRegistered
         else some errUnauthorized)
      else if maxReached users.length mu then some errMaxUsers
      else none := rfl

theorem adduser_sanity_some (P : CryptoPrims) (cg : Option (String → String)) (now : String)
    (mu : Option Int) (users0 : List (String × String)) (user password : String)
    (rd : LockReadOut) (we ue : Option JsError) (e : JsError)
    (hs : sanityCheck user password (verifyPassword P) users0 mu = some e) :
    adduser P cg now mu users0 user password rd we ue
      = ⟨(some e, false), [Ev.realCb (some e) false], none⟩ := by
  unfold adduser
  rw [hs]

theorem adduser_sanity_none_lockOk (P : CryptoPrims) (cg : Option (String → String))
    (now : String) (mu : Option Int) (users0 : List (String × String))
    (user password content : String) (we ue : Option JsError)
    (hs : sanityCheck user password (verifyPassword P) users0 mu = none) :
    adduser P cg now mu users0 user password (.lockOk content) we ue
      = adduserLocked P cg now mu user password true content we := by
  unfold adduser
  rw [hs]

theorem adduser_sanity_none_enoent (P : CryptoPrims) (cg : Option (String → String))
    (now : String) (mu : Option Int) (users0 : List (String × String))
    (user password : String) (we ue : Option JsError)
    (hs : sanityCheck user password (verifyPassword P) users0 mu = none) :
    adduser P cg now mu users0 user password .lockEnoent we ue
      = adduserLocked P cg now mu user password false "" we := by
  unfold adduser
  rw [hs]

theorem adduser_sanity_none_lockErr (P : CryptoPrims) (cg : Option (String → String))
    (now : String) (mu : Option Int) (users0 : List (String × String))
    (user password : String) (we ue : Option JsError) (e : JsError)
    (hs : sanityCheck user password (verifyPassword P) users0 mu = none) :
    adduser P cg now mu users0 user password (.lockErr e) we ue
      = ⟨(some e, false), [Ev.realCb (some e) false], none⟩ := by
  unfold adduser
  rw [hs]

theorem adduserLocked_sanity_some (P : CryptoPrims) (cg : Option (String → String))
    (now : String) (mu : Option Int) (user password : String) (locked : Bool)
    (body : String) (we : Option JsError) (e : JsError)
    (hs2 : sanityCheck user password (verifyPassword P) (parseHTPasswd body) mu = some e) :
    adduserLocked P cg now mu user password locked body we
      = ⟨(adduserCb locked (some e)).1, (adduserCb locked (some e)).2, none⟩ := by
  unfold adduserLocked
  rw [hs2]

theorem adduserLocked_add_error (P : CryptoPrims) (cg : Option (String → String))
    (now : String) (mu : Option Int) (user password : String) (locked : Bool)
    (body : String) (we : Option JsError) (e : JsError)
    (hs2 : sanityCheck user password (verifyPassword P) (parseHTPasswd body) mu = none)
    (ha : addUserToHTPasswd cg P now body user password = .error e) :
    adduserLocked P cg now mu user password locked body we
      = ⟨(adduserCb locked (some e)).1, (adduserCb locked (some e)).2, none⟩ := by
  unfold adduserLocked
  rw [hs2, ha]

theorem adduserLocked_write_error (P : CryptoPrims) (cg : Option (String → String))
    (now : String) (mu : Option Int) (user password : String) (locked : Bool)
    (body newBody : String) (e : JsError)
    (hs2 : sanityCheck user password (verifyPassword P) (parseHTPasswd body) mu = none)
    (ha : addUserToHTPasswd cg P now body user password = .ok newBody) :
    adduserLocked P cg now mu user password locked body (some e)
      = ⟨(adduserCb locked (some e)).1,
          Ev.fsWrite :: (adduserCb locked (some e)).2, none⟩ := by
  unfold adduserLocked
  rw [hs2, ha]

theorem adduserLocked_success (P : CryptoPrims) (cg : Option (String → String))
    (now : String) (mu : Option Int) (user password : String) (locked : Bool)
    (body newBody : String)
    (hs2 : sanityCheck user password (verifyPassword P) (parseHTPasswd body) mu = none)
    (ha : addUserToHTPasswd cg P now body user password = .ok newBody) :
    adduserLocked P cg now mu user password locked body none
      = ⟨(adduserCb locked none).1,
          Ev.fsWrite :: Ev.reloadUsers :: (adduserCb locked none).2, some newBody⟩ := by
  unfold adduserLocked
  rw [hs2, ha]

theorem addUserToHTPasswd_uri_error (cg : Option (String → String)) (P : CryptoPrims)
    (now body user passwd : String) (hu : user ≠ encodeURIComponent user) :
    addUserToHTPasswd cg P now body user passwd = .error errUriSafe := by
  unfold addUserToHTPasswd
  rw [if_pos hu]


/-- C1 (amended): for every username bound in the store's in-memory user map
to a NON-EMPTY stored hash, `adduser` always fails, whatever the password
and whatever the file and lock outcomes: the error is the 400 missing-input
error when the username or the password is empty, the 409 already-registered
error when the password verifies against the stored hash, and the 401
unauthorized error otherwise.  (A username bound to an empty hash, parsed
from a line `user:`, escapes the duplicate check; see the counterexample.) -/
theorem adduser_existing_nonempty_hash_fails
    (P : CryptoPrims) (cg : Option (String → String)) (now : String)
    (mu : Option Int) (users0 : List (String × String)) (user password : String)
    (rd : LockReadOut) (we ue : Option JsError) (h : String)
    (hh : lookupVal users0 user = some h) (hne : h ≠ "") :
    ∃ e : JsError,
      (adduser P cg now mu users0 user password rd we ue).result = (some e, false) ∧
      e.status = some (if user = "" ∨ password = "" then 400
        else if verifyPassword P password h then 409 else 401) := by
  by_cases hup : user = "" ∨ password = ""
  · have hs : sanityCheck user password (verifyPassword P) users0 mu = some errRequired := by
      rw [sanityCheck_eq, if_pos hup]
    refine ⟨errRequired, ?_, ?_⟩
    · rw [adduser_sanity_some P cg now mu users0 user password rd we ue errRequired hs]
    · rw [if_pos hup]
      rfl
  · have htru : truthy (some h) = true := by
      simp [truthy, hne]
    by_cases hv : verifyPassword P password h
    · have hs : sanityCheck user password (verifyPassword P) users0 mu
          = some errRegistered := by
        rw [sanityCheck_eq, hh, if_neg hup, if_pos htru]
        simp only [Option.getD_some]
        rw [if_pos hv]
      refine ⟨errRegistered, ?_, ?_⟩
      · rw [adduser_sanity_some P cg now mu users0 user password rd we ue errRegistered hs]
      · rw [if_neg hup, if_pos hv]
        rfl
    · have hs : sanityCheck user password (verifyPassword P) users0 mu
          = some errUnauthorized := by
        rw [sanityCheck_eq, hh, if_neg hup, if_pos htru]
        simp only [Option.getD_some]
        rw [if_neg hv]
      refine ⟨errUnauthorized, ?_, ?_⟩
      · rw [adduser_sanity_some P cg now mu users0 user password rd we ue errUnauthorized hs]
      · rw [if_neg hup, if_neg hv]
        rfl

/-- C1 witness: re-adding `bob`, stored with the plain-scheme hash of `pw`,
with the matching password fails with status 409. -/
theorem adduser_existing_nonempty_hash_fails_w :
    ∃ e : JsError,
      (adduser toyPrims (some cryptStub) "D" none [("bob", "{PLAIN}pw")] "bob" "pw"
          (.lockOk "bob:{PLAIN}pw") none none).result = (some e, false) ∧
      e.status = some 409 := by
  obtain ⟨e, he1, he2⟩ := adduser_existing_nonempty_hash_fails toyPrims (some cryptStub) "D"
    none [("bob", "{PLAIN}pw")] "bob" "pw" (.lockOk "bob:{PLAIN}pw") none none "{PLAIN}pw"
    (by decide) (by decide)
  refine ⟨e, he1, ?_⟩
  rw [he2]
  decide

/-- C1 counterexample: the claim fails as stated — a username already
present in the user map CAN be added again successfully when its stored
hash is the empty string, which `parseHTPasswd` produces for the file line
`alice:`; the call runs to completion and reports success. -/
theorem adduser_existing_empty_hash_succeeds :
    lookupVal [("alice", "")] "alice" = some "" ∧
      (adduser toyPrims (some cryptStub) "2020-01-01T00:00:00.000Z" none [("alice", "")]
          "alice" "x" (.lockOk "alice:") none none).result = (none, true) := by
  constructor
  · decide
  · decide

theorem adduserLocked_uri (P : CryptoPrims) (cg : Option (String → String)) (now : String)
    (mu : Option Int) (user password : String) (locked : Bool) (body : String)
    (we : Option JsError) (hu : user ≠ encodeURIComponent user) :
    (Ev.fsWrite ∉ (adduserLocked P cg now mu user password locked body we).trace ∧
      (adduserLocked P cg now mu user password locked body we).fileWritten = none) ∧
    (sanityCheck user password (verifyPassword P) (parseHTPasswd body) mu = none →
      (adduserLocked P cg now mu user password locked body we).result
        = (some errUriSafe, false)) := by
  have haddErr := addUserToHTPasswd_uri_error cg P now body user password hu
  cases hs2 : sanityCheck user password (verifyPassword P) (parseHTPasswd body) mu with
  | some e =>
    rw [adduserLocked_sanity_some P cg now mu user password locked body we e hs2]
    refine ⟨⟨?_, rfl⟩, ?_⟩
    · cases locked <;> simp [adduserCb]
    · intro hc
      exact Option.noConfusion hc
  | none =>
    rw [adduserLocked_add_error P cg now mu user password locked body we errUriSafe hs2 haddErr]
    refine ⟨⟨?_, rfl⟩, fun _ => rfl⟩
    cases locked <;> simp [adduserCb]

/-- C4 (amended): a username different from its own percent-encoding is
always rejected by `adduser` without the backing file ever being written —
`fs.writeFile` is never invoked on any path, whatever the password and the
file and lock outcomes.  The reported error is the username-validation
error (status 409) whenever the earlier sanity checks do not fire first:
with a non-empty password, a username absent (or bound to an empty hash) in
both the in-memory map and the re-read file, and the capacity limit not
reached.  (With an empty password the call still fails and still performs
no write, but reports the 400 missing-input error instead; see the
counterexample.) -/
theorem adduser_uri_unsafe_never_writes
    (P : CryptoPrims) (cg : Option (String → String)) (now : String)
    (mu : Option Int) (users0 : List (String × String)) (user password : String)
    (rd : LockReadOut) (we ue : Option JsError)
    (hu : user ≠ encodeURIComponent user) :
    (Ev.fsWrite ∉ (adduser P cg now mu users0 user password rd we ue).trace ∧
      (adduser P cg now mu users0 user password rd we ue).fileWritten = none) ∧
    (∀ content, rd = .lockOk content → password ≠ "" →
      truthy (lookupVal users0 user) = false → maxReached users0.length mu = false →
      truthy (lookupVal (parseHTPasswd content) user) = false →
      maxReached (parseHTPasswd content).length mu = false →
      (adduser P cg now mu users0 user password rd we ue).result
        = (some errUriSafe, false)) := by
  have hune : user ≠ "" := by
    intro e
    apply hu
    rw [e]
    rfl
  refine ⟨?_, ?_⟩
  · cases hs1 : sanityCheck user password (verifyPassword P) users0 mu with
    | some e =>
      rw [adduser_sanity_some P cg now mu users0 user password rd we ue e hs1]
      exact ⟨by simp, rfl⟩
    | none =>
      cases rd with
      | lockErr e =>
        rw [adduser_sanity_none_lockErr P cg now mu users0 user password we ue e hs1]
        exact ⟨by simp, rfl⟩
      | lockOk content =>
        rw [adduser_sanity_none_lockOk P cg now mu users0 user password content we ue hs1]
        exact (adduserLocked_uri P cg now mu user password true content we hu).1
      | lockEnoent =>
        rw [adduser_sanity_none_enoent P cg now mu users0 user password we ue hs1]
        exact (adduserLocked_uri P cg now mu user password false "" we hu).1
  · intro content hrd hp htr hmax htr2 hmax2
    subst hrd
    have hs1 : sanityCheck user password (verifyPassword P) users0 mu = none := by
      rw [sanityCheck_eq, if_neg (by tauto), if_neg (by simp [htr]), if_neg (by simp [hmax])]
    rw [adduser_sanity_none_lockOk P cg now mu users0 user password content we ue hs1]
    apply (adduserLocked_uri P cg now mu user password true content we hu).2
    rw [sanityCheck_eq, if_neg (by tauto), if_neg (by simp [htr2]), if_neg (by simp [hmax2])]

/-- C4 witness: adding the non-URI-safe username `weird name` with a
non-empty password against an empty store reports the username-validation
error and the write event never occurs. -/
theorem adduser_uri_unsafe_never_writes_w :
    Ev.fsWrite ∉ (adduser toyPrims (some cryptStub) "D" none [] "weird name" "x"
        (.lockOk "") none none).trace ∧
      (adduser toyPrims (some cryptStub) "D" none [] "weird name" "x"
        (.lockOk "") none none).result = (some errUriSafe, false) := by
  have h := adduser_uri_unsafe_never_writes toyPrims (some cryptStub) "D" none []
    "weird name" "x" (.lockOk "") none none (by decide)
  exact ⟨h.1.1, h.2 "" rfl (by decide) (by decide) (by decide) (by decide) (by decide)⟩

/-- C4 counterexample: the claim fails as stated — with the non-URI-safe
username `weird name` and the empty password, `adduser` reports the 400
missing-input error, not the username-validation error (the call still
fails and nothing is written). -/
theorem adduser_uri_unsafe_empty_password_error :
    (adduser toyPrims (some cryptStub) "D" none [] "weird name" ""
        (.lockOk "") none none).result = (some errRequired, false) ∧
      errRequired ≠ errUriSafe := by
  constructor
  · decide
  · decide

/-- C5: once the file lock has been acquired (the locked read succeeded and
the preliminary sanity check let the call proceed), every exit path of
`adduser` — sanity-check failure after the re-read, the username-validation
throw, a file-write error, and the success path — emits the unlock event
immediately before the caller's callback, the callback receives exactly the
path's error together with `!err`, and the outcome is independent of any
error from the unlock call, which the code ignores. -/
theorem adduser_unlocks_after_acquisition
    (P : CryptoPrims) (cg : Option (String → String)) (now : String)
    (mu : Option Int) (users0 : List (String × String)) (user password : String)
    (content : String) (we ue ue' : Option JsError)
    (hs : sanityCheck user password (verifyPassword P) users0 mu = none) :
    adduser P cg now mu users0 user password (.lockOk content) we ue
        = adduser P cg now mu users0 user password (.lockOk content) we ue' ∧
    ∃ (rest : List Ev) (e : Option JsError),
      (adduser P cg now mu users0 user password (.lockOk content) we ue).trace
          = rest ++ [Ev.unlock, Ev.realCb e e.isNone] ∧
      (adduser P cg now mu users0 user password (.lockOk content) we ue).result
          = (e, e.isNone) := by
  refine ⟨rfl, ?_⟩
  rw [adduser_sanity_none_lockOk P cg now mu users0 user password content we ue hs]
  cases hs2 : sanityCheck user password (verifyPassword P) (parseHTPasswd content) mu with
  | some e =>
    rw [adduserLocked_sanity_some P cg now mu user password true content we e hs2]
    exact ⟨[], some e, rfl, rfl⟩
  | none =>
    cases ha : addUserToHTPasswd cg P now content user password with
    | error e =>
      rw [adduserLocked_add_error P cg now mu user password true content we e hs2 ha]
      exact ⟨[], some e, rfl, rfl⟩
    | ok newBody =>
      cases we with
      | some e =>
        rw [adduserLocked_write_error P cg now mu user password true content newBody e hs2 ha]
        exact ⟨[Ev.fsWrite], some e, rfl, rfl⟩
      | none =>
        rw [adduserLocked_success P cg now mu user password true content newBody hs2 ha]
        exact ⟨[Ev.fsWrite, Ev.reloadUsers], none, rfl, rfl⟩

/-- C5 witness: a successful registration against an empty locked file ends
its trace with the unlock event followed by the success callback. -/
theorem adduser_unlocks_after_acquisition_w :
    ∃ (rest : List Ev) (e : Option JsError),
      (adduser toyPrims (some cryptStub) "D" none [] "bob" "pw"
          (.lockOk "") none none).trace = rest ++ [Ev.unlock, Ev.realCb e e.isNone] ∧
      (adduser toyPrims (some cryptStub) "D" none [] "bob" "pw"
          (.lockOk "") none none).result = (e, e.isNone) :=
  (adduser_unlocks_after_acquisition toyPrims (some cryptStub) "D" none [] "bob" "pw"
    "" none none (some errRequired) (by decide)).2
